import Mathlib

/-!
Verification of the state-persistence and mention-processing pipeline of the
fantasy-top-huds-x Twitter bot.

The definitions below are a shallow embedding of the JavaScript sources:

* `src/stateManager.mjs` — the state façade (`saveLastMentionId`,
  `hasRepliedToTweet`, `markTweetAsReplied`, `startExecution`, `endExecution`,
  `recordError`).  The façade is embedded in its file-backend mode
  (`USE_DYNAMO_STATE` unset, the default), with file storage succeeding;
  the DynamoDB-path variants needed by the claims are embedded separately
  against an explicit `DynamoStore`.
* `src/dynamoStateManager.mjs` — the DynamoDB backend operations
  (`markTweetAsReplied`, `saveLastMentionId`), modelled against an explicit
  store record with the DynamoDB calls succeeding.
* `src/fileStateManager.mjs` — the file backend (`saveState`, `loadState`),
  including the exact sequence of filesystem operations `saveState` performs.
* `src/mentionProcessor.mjs` — `processMentions`, as a state transformer over
  the bot state that also emits a trace of external events (post calls,
  cursor saves, execution end).

Numbers that are JavaScript floats (timestamps, durations, averages, rates)
are modelled as exact rationals `ℚ`; JavaScript object maps are modelled as
association lists with in-place update semantics.  External collaborators
(Twitter fetch/post, the hero resolver, the username lookup, the
`mentionHelper` classification) are oracles: their outcomes for a given run
are fields of the `Mention` and `RunEnv` records.
-/

/-! ### JavaScript object maps as association lists -/

/-- JS object assignment `o[k] = v`: replace the value at an existing key in
place, otherwise append the new key at the end (JS property-insertion order). -/
def jsUpdate {α : Type} (l : List (String × α)) (k : String) (v : α) :
    List (String × α) :=
  match l with
  | [] => [(k, v)]
  | (k', v') :: rest =>
      if k' = k then (k', v) :: rest else (k', v') :: jsUpdate rest k v

/-- JS property read `o[k]`, as an option. -/
def jsLookup {α : Type} (l : List (String × α)) (k : String) : Option α :=
  match l with
  | [] => none
  | (k', v') :: rest => if k' = k then some v' else jsLookup rest k

/-- JS counter bump `o[k] = (o[k] || 0) + 1`. -/
def jsIncr (l : List (String × Nat)) (k : String) : List (String × Nat) :=
  jsUpdate l k ((jsLookup l k).getD 0 + 1)

/-- JS `s.toLowerCase()` (for the ASCII hero names involved), implemented
over the character list so it evaluates by kernel reduction. -/
def jsToLowerCase (s : String) : String := String.mk (s.data.map Char.toLower)

/-- Substring test on character lists, embedding JS `String.includes`. -/
def hasSubstring (pat : List Char) : List Char → Bool
  | [] => pat.isEmpty
  | c :: rest => pat.isPrefixOf (c :: rest) || hasSubstring pat rest

/-- JS `message.includes(pat)` on strings. -/
def strIncludes (s pat : String) : Bool := hasSubstring pat.toList s.toList

/-! ### The canonical state document (src/stateManager.mjs `getDefaultState`)

The `metadata` and `statistics` blocks of the document are omitted: no
operation modelled here reads them. -/

/-- Metadata stored with each reply in `replies.history`
(src/mentionProcessor.mjs lines 340–345; `repliedAt` is stamped by
`markTweetAsReplied`). -/
structure ReplyMeta where
  repliedAt : Option ℤ
  heroName : Option String
  authorUsername : String
  replyText : String
  mentionType : String
  deriving DecidableEq, Repr

/-- The `twitter` block: mention cursor, processed counter, timestamp. -/
structure TwitterCursor where
  lastMentionId : Option String
  processedCount : Nat
  lastProcessedAt : Option ℤ
  deriving DecidableEq, Repr

/-- The `replies` block: total count, per-hero counters, dedup history. -/
structure Replies where
  count : Nat
  byHero : List (String × Nat)
  history : List (String × ReplyMeta)
  deriving DecidableEq, Repr

/-- One entry of the error log (src/stateManager.mjs `recordError`). -/
structure ErrorEntry where
  timestamp : ℤ
  context : String
  message : String
  deriving DecidableEq, Repr

/-- The `errors` block: counter, last entry, bounded history. -/
structure ErrorLog where
  count : Nat
  last : Option ErrorEntry
  history : List ErrorEntry
  deriving DecidableEq, Repr

/-- The per-run statistics object built by `processMentions`
(src/mentionProcessor.mjs lines 171–177). -/
structure RunStats where
  mentionsFound : Nat
  mentionsProcessed : Nat
  repliesSent : Nat
  errors : Nat
  retries : Nat
  deriving DecidableEq, Repr

/-- The `executionMetrics` block (src/stateManager.mjs lines 79–86;
`lastRunStart` and `lastRunStats` are added by `startExecution` /
`endExecution`). -/
structure ExecMetrics where
  totalRuns : Nat
  lastRunStart : Option ℤ
  lastRunTime : Option ℤ
  lastRunDuration : ℤ
  avgRunDuration : ℚ
  successRate : ℚ
  currentExecutionId : Option String
  lastRunStats : Option RunStats
  deriving DecidableEq, Repr

/-- The composite state document persisted by the file backend. -/
structure BotState where
  twitter : TwitterCursor
  replies : Replies
  errors : ErrorLog
  executionMetrics : ExecMetrics
  deriving DecidableEq, Repr

/-- `getDefaultState()` (src/stateManager.mjs lines 57–99). -/
def getDefaultState : BotState where
  twitter := { lastMentionId := none, processedCount := 0, lastProcessedAt := none }
  replies := { count := 0, byHero := [], history := [] }
  errors := { count := 0, last := none, history := [] }
  executionMetrics :=
    { totalRuns := 0
      lastRunStart := none
      lastRunTime := none
      lastRunDuration := 0
      avgRunDuration := 0
      successRate := 100
      currentExecutionId := none
      lastRunStats := none }

/-! ### State façade, file-backend mode (src/stateManager.mjs)

`USE_DYNAMO` is false and file storage succeeds, so `fileSystem.loadState`
returns the current document and `fileSystem.saveState` returns true. -/

/-- `saveLastMentionId(mentionId)` (src/stateManager.mjs lines 151–200),
file path.  The argument is an `Option` so that `none` models a
null/undefined id; `some ""` models the empty string.  Both are falsy and
rejected up front with a `false` return and no state change. -/
def saveLastMentionId (s : BotState) (mentionId : Option String) (now : ℤ) :
    Bool × BotState :=
  match mentionId with
  | none => (false, s)
  | some mid =>
      if mid = "" then (false, s)
      else
        (true,
          { s with twitter :=
              { lastMentionId := some mid
                processedCount := s.twitter.processedCount + 1
                lastProcessedAt := some now } })

/-- `hasRepliedToTweet(tweetId)` (src/stateManager.mjs lines 207–229),
file path: `!!fileState?.replies?.history?.[tweetId]`. -/
def hasRepliedToTweet (s : BotState) (tweetId : String) : Bool :=
  (jsLookup s.replies.history tweetId).isSome

/-- The `repliedAt` stamp of `markTweetAsReplied`
(src/stateManager.mjs lines 243–245): set only when absent. -/
def stampRepliedAt (metadata : ReplyMeta) (now : ℤ) : ReplyMeta :=
  match metadata.repliedAt with
  | none => { metadata with repliedAt := some now }
  | some _ => metadata

/-- `markTweetAsReplied(tweetId, metadata)` (src/stateManager.mjs
lines 237–312), file path (lines 276–299): stamp `repliedAt` if absent,
record the history entry, bump `replies.count`, bump
`replies.byHero[heroName.toLowerCase()]` when `heroName` is present.
The source performs no pruning of old history entries. -/
def markTweetAsReplied (s : BotState) (tweetId : String) (metadata : ReplyMeta)
    (now : ℤ) : Bool × BotState :=
  let md := stampRepliedAt metadata now
  let history' := jsUpdate s.replies.history tweetId md
  let count' := s.replies.count + 1
  let byHero' :=
    match md.heroName with
    | some h => jsIncr s.replies.byHero (jsToLowerCase h)
    | none => s.replies.byHero
  (true, { s with replies := { count := count', byHero := byHero', history := history' } })

/-- `shouldIgnoreError(error, context)` (src/stateManager.mjs lines 37–51). -/
def shouldIgnoreError (message context : String) : Bool :=
  strIncludes context "Failed to get username for author_id" ||
  strIncludes context "Response code 429 (Too Many Requests)" ||
  strIncludes message "Rate limit" ||
  strIncludes message "Too Many Requests" ||
  strIncludes message "429"

/-- `recordError(error, context)` (src/stateManager.mjs lines 497–565),
file path: skip ignored errors, else bump the counter, set `last` and
push onto the history keeping the 20 newest entries. -/
def recordError (s : BotState) (message context : String) (now : ℤ) : BotState :=
  if shouldIgnoreError message context then s
  else
    let entry : ErrorEntry := { timestamp := now, context := context, message := message }
    { s with errors :=
        { count := s.errors.count + 1
          last := some entry
          history := (entry :: s.errors.history).take 20 } }

/-- The `executionMetrics` update of `startExecution()`
(src/stateManager.mjs lines 353–366, file path): bump `totalRuns`, stamp
`lastRunStart`, record the new execution id. -/
def startExecutionUpdate (m : ExecMetrics) (now : ℤ) (executionId : String) :
    ExecMetrics :=
  { m with
      totalRuns := m.totalRuns + 1
      lastRunStart := some now
      currentExecutionId := some executionId }

/-- The `executionMetrics` update of `endExecution(success, stats)`
(src/stateManager.mjs lines 442–484, file path; the DynamoDB path at
lines 389–430 performs the same computation on the same fields).
`endTime` is the clock value at the end of the run.  The source's
`avgRunDuration || 0` is the identity on rationals and is written as the
plain field; `successRate || 100` is not (0 is falsy in JS) and is kept. -/
def endExecutionUpdate (m : ExecMetrics) (success : Bool) (stats : RunStats)
    (endTime : ℤ) : ExecMetrics :=
  let startTime : ℤ := m.lastRunStart.getD endTime
  let duration : ℤ := endTime - startTime
  let totalRuns : Nat := if m.totalRuns = 0 then 1 else m.totalRuns
  let prevAvg : ℚ := m.avgRunDuration
  let prevRuns : Nat := if totalRuns > 1 then totalRuns - 1 else 0
  let avg' : ℚ :=
    if 0 < prevRuns then (prevAvg * prevRuns + (duration : ℚ)) / totalRuns
    else (duration : ℚ)
  let prevSuccesses : ℚ :=
    min ((if m.successRate = 0 then 100 else m.successRate) * prevRuns / 100)
      (prevRuns : ℚ)
  let newSuccessCount : ℚ := prevSuccesses + (if success then 1 else 0)
  let successRate' : ℚ := min (newSuccessCount / totalRuns * 100) 100
  { m with
      lastRunTime := some endTime
      lastRunDuration := duration
      lastRunStats := some stats
      avgRunDuration := avg'
      successRate := successRate' }

/-! ### DynamoDB backend (src/dynamoStateManager.mjs)

The store is modelled explicitly: the `lastMentionId` record, one
`tweet_<id>` record per replied tweet, and the `heroStats` / `replyCount`
records maintained by the façade.  DynamoDB calls succeed. -/

/-- The record stored under the `lastMentionId` key
(src/dynamoStateManager.mjs lines 253–258). -/
structure DynamoMentionRec where
  id : String
  processedCount : Nat
  lastProcessedAt : ℤ
  updatedAt : ℤ
  deriving DecidableEq, Repr

/-- The modelled contents of the DynamoDB state table. -/
structure DynamoStore where
  lastMention : Option DynamoMentionRec
  tweets : List (String × ReplyMeta)
  heroStats : List (String × Nat)
  replyCount : Nat
  deriving DecidableEq, Repr

/-- `saveLastMentionId(mentionId)` of the DynamoDB backend
(src/dynamoStateManager.mjs lines 245–261): reject falsy ids, else write a
fresh record with the bumped `processedCount` and both timestamps. -/
def dynamoSaveLastMentionId (d : DynamoStore) (mentionId : Option String)
    (now : ℤ) : Bool × DynamoStore :=
  match mentionId with
  | none => (false, d)
  | some mid =>
      if mid = "" then (false, d)
      else
        let existingCount := (d.lastMention.map DynamoMentionRec.processedCount).getD 0
        let rec' : DynamoMentionRec :=
          { id := mid
            processedCount := existingCount + 1
            lastProcessedAt := now
            updatedAt := now }
        (true, { d with lastMention := some rec' })

/-- `markTweetAsReplied(tweetId, metadata)` of the DynamoDB backend
(src/dynamoStateManager.mjs lines 222–229): stamp `repliedAt` if absent and
store the metadata under the `tweet_<id>` key. -/
def dynamoMarkTweetAsReplied (d : DynamoStore) (tweetId : String)
    (metadata : ReplyMeta) (now : ℤ) : Bool × DynamoStore :=
  let md := stampRepliedAt metadata now
  (true, { d with tweets := jsUpdate d.tweets tweetId md })

/-- `markTweetAsReplied` of the façade on the DynamoDB path
(src/stateManager.mjs lines 243–267, `USE_DYNAMO` true and the backend
succeeding): stamp `repliedAt`, store the tweet record, and —
only when `metadata.heroName` is present — bump the `heroStats` entry and
the `replyCount` record. -/
def markTweetAsRepliedDynamo (d : DynamoStore) (tweetId : String)
    (metadata : ReplyMeta) (now : ℤ) : Bool × DynamoStore :=
  let md := stampRepliedAt metadata now
  let (success, d1) := dynamoMarkTweetAsReplied d tweetId md now
  if success then
    match md.heroName with
    | some h =>
        let d2 := { d1 with heroStats := jsIncr d1.heroStats (jsToLowerCase h) }
        (true, { d2 with replyCount := d2.replyCount + 1 })
    | none => (true, d1)
  else (false, d1)

/-! ### Mention processor (src/mentionProcessor.mjs `processMentions`)

External collaborators are oracles whose outcomes are recorded on the
`Mention` (per-mention data) and `RunEnv` (per-run data).  Storage runs in
file-backend mode and succeeds.  The clock is sampled once per run
(`RunEnv.now`) and once more at `endExecution` (`RunEnv.endTime`). -/

/-- Outcome of `getHeroMarketInfo(candidate)` for one extracted candidate:
a hero with the given name, a null result, or a thrown error carrying the
given message. -/
inductive ResolveOutcome where
  | found (heroName : String)
  | nullResult
  | err (message : String)
  deriving DecidableEq, Repr

/-- One fetched mention together with the oracle outcomes of the external
calls made while processing it.  `shouldRespond` is the result of the
`mentionHelper` classification (`shouldRespondToMention`); `candidates` is
the resolver outcome for each candidate `extractPotentialHeroes` returned,
in order; `usernameLookup` is the `getUserById` result (when `username` is
absent), `none` modelling a failed lookup; `postSucceeds` is whether
`postTweet` succeeds, and `postErrorMessage` the error message otherwise;
`mentionIsDirect` is the `mentionHelper` direct/indirect classification;
`replyPreview` stands for the reply-text preview stored in the metadata. -/
structure Mention where
  id : String
  author_id : String
  created_at : Option ℤ
  username : Option String
  shouldRespond : Bool
  candidates : List ResolveOutcome
  usernameLookup : Option String
  postSucceeds : Bool
  postErrorMessage : String
  mentionIsDirect : Bool
  replyPreview : String
  deriving DecidableEq, Repr

/-- Per-run oracle data: the clock at batch start and at `endExecution`,
the generated execution id, and whether `loadTokens()` returns tokens. -/
structure RunEnv where
  now : ℤ
  endTime : ℤ
  execId : String
  tokensPresent : Bool
  deriving DecidableEq, Repr

/-- `MAX_TWEET_AGE_MS` (src/mentionProcessor.mjs line 26). -/
def MAX_TWEET_AGE_MS : ℤ := 900000

/-- `isTweetRecent(tweetCreatedAt)` (src/mentionProcessor.mjs lines 124–139):
false for a missing timestamp, else the age bound (a tweet from the future
has negative age and passes, as in the source). -/
def isTweetRecent (now : ℤ) (createdAt : Option ℤ) : Bool :=
  match createdAt with
  | none => false
  | some t => now - t ≤ MAX_TWEET_AGE_MS

/-- The rate-limit classification of a resolver error
(src/mentionProcessor.mjs line 265). -/
def isRateLimitMessage (message : String) : Bool :=
  strIncludes message "rate limit" || strIncludes message "too many requests"

/-- Result of the candidate-resolution loop. -/
inductive ResolveResult where
  | foundHero (heroName : String)
  | exhausted
  | rateLimited
  deriving DecidableEq, Repr

/-- The candidate loop of `processMentions` (src/mentionProcessor.mjs
lines 255–274): stop at the first hero found; a resolver error whose message
is rate-limit classified stops the whole batch; any other error or null
result moves on to the next candidate. -/
def resolveLoop : List ResolveOutcome → ResolveResult
  | [] => .exhausted
  | .found h :: _ => .foundHero h
  | .nullResult :: rest => resolveLoop rest
  | .err msg :: rest =>
      if isRateLimitMessage msg then .rateLimited else resolveLoop rest

/-- Externally visible events emitted while processing a batch. -/
inductive Event where
  | post (replyToId : String)
  | cursorSave (id : String)
  | endExec (success : Bool)
  deriving DecidableEq, Repr

/-- The `stats.mentionsProcessed++` bump at the top of the loop body
(src/mentionProcessor.mjs line 213). -/
def bumpProcessed (st : RunStats) : RunStats :=
  { st with mentionsProcessed := st.mentionsProcessed + 1 }

/-- One iteration of the mention loop of `processMentions`
(src/mentionProcessor.mjs lines 210–414).  Returns `.error stats` when the
rate-limit abort fires (the `return` at line 269, leaving the state
untouched), else `.ok` with the updated state, the updated stats and the
events emitted for this mention.  `MAX_RETRIES` is 0 in the source
(line 322), so the post-retry loop is a single attempt. -/
def processMention (env : RunEnv) (s : BotState) (st : RunStats) (m : Mention) :
    Except RunStats (BotState × RunStats × List Event) :=
  let st := bumpProcessed st
  if hasRepliedToTweet s m.id then .ok (s, st, [])
  else if ¬ isTweetRecent env.now m.created_at then
    .ok ((saveLastMentionId s (some m.id) env.now).2, st, [.cursorSave m.id])
  else if ¬ m.shouldRespond then
    .ok ((saveLastMentionId s (some m.id) env.now).2, st, [.cursorSave m.id])
  else if m.candidates.isEmpty then
    .ok ((saveLastMentionId s (some m.id) env.now).2, st, [.cursorSave m.id])
  else
    match resolveLoop m.candidates with
    | .rateLimited => .error st
    | .exhausted =>
        .ok ((saveLastMentionId s (some m.id) env.now).2, st, [.cursorSave m.id])
    | .foundHero h =>
        if ¬ env.tokensPresent then
          .ok (recordError s "No valid tokens found for Twitter API"
                ("Failed to post reply to " ++ m.id) env.now,
               { st with errors := st.errors + 1 }, [])
        else
          let usernameEff : Option String :=
            match m.username with
            | some u => some u
            | none => m.usernameLookup
          let st :=
            if m.username.isNone ∧ m.usernameLookup.isNone then
              { st with errors := st.errors + 1 }
            else st
          let metadata : ReplyMeta :=
            { repliedAt := none
              heroName := some h
              authorUsername := usernameEff.getD m.author_id
              replyText := m.replyPreview
              mentionType := if m.mentionIsDirect then "direct" else "indirect" }
          if m.postSucceeds then
            let st := { st with repliesSent := st.repliesSent + 1 }
            let s1 := (markTweetAsReplied s m.id metadata env.now).2
            let s2 := (saveLastMentionId s1 (some m.id) env.now).2
            .ok (s2, st, [.post m.id, .cursorSave m.id])
          else
            let st := { st with errors := st.errors + 1 }
            let s1 := recordError s m.postErrorMessage
              ("Failed to post reply to tweet " ++ m.id) env.now
            let s2 := (saveLastMentionId s1 (some m.id) env.now).2
            .ok (s2, st, [.post m.id, .cursorSave m.id])

/-- Outcome of the mention loop over a batch: completed normally, or
aborted early by the rate-limit `return`. -/
inductive LoopOutcome where
  | completed (s : BotState) (st : RunStats) (trace : List Event)
  | aborted (s : BotState) (st : RunStats) (trace : List Event)
  deriving DecidableEq, Repr

/-- The mention loop (src/mentionProcessor.mjs lines 210–414) over an
already-sorted batch. -/
def processLoop (env : RunEnv) (s : BotState) (st : RunStats) :
    List Mention → LoopOutcome
  | [] => .completed s st []
  | m :: rest =>
      match processMention env s st m with
      | .error st' => .aborted s st' []
      | .ok (s', st', evs) =>
          match processLoop env s' st' rest with
          | .completed s'' st'' evs' => .completed s'' st'' (evs ++ evs')
          | .aborted s'' st'' evs' => .aborted s'' st'' (evs ++ evs')

/-- The chronological sort at the head of the loop
(src/mentionProcessor.mjs line 209): the comparator `a.id > b.id ? 1 : -1`
keeps `a` before `b` exactly when `a.id ≤ b.id`, i.e. a stable sort by id. -/
def sortBatch (batch : List Mention) : List Mention :=
  batch.mergeSort (fun a b => a.id ≤ b.id)

/-- The initial stats object of a run, after `stats.mentionsFound` is set
(src/mentionProcessor.mjs lines 171–177 and 205). -/
def initialStats (batch : List Mention) : RunStats :=
  { mentionsFound := batch.length
    mentionsProcessed := 0
    repliesSent := 0
    errors := 0
    retries := 0 }

/-- The state right after `startExecution()` at the top of a run. -/
def runStartState (s : BotState) (env : RunEnv) : BotState :=
  { s with executionMetrics :=
      startExecutionUpdate s.executionMetrics env.now env.execId }

/-- One full `processMentions()` run (src/mentionProcessor.mjs
lines 169–424) from state `s`: `startExecution`, fetch (the batch is the
oracle), sort, the mention loop, and — only when the loop completes —
`endExecution(true, stats)`.  An abort returns without `endExecution`
(the `return` at line 269 skips line 416).  Nothing in the model throws, so
the `endExecution(false, …)` catch path at line 421 is unreachable. -/
def processMentionsRun (s : BotState) (env : RunEnv) (batch : List Mention) :
    BotState × List Event :=
  match processLoop env (runStartState s env) (initialStats batch)
      (sortBatch batch) with
  | .aborted s' _ tr => (s', tr)
  | .completed s' st tr =>
      ({ s' with executionMetrics :=
           endExecutionUpdate s'.executionMetrics true st env.endTime },
       tr ++ [.endExec true])

/-- A batch run together with its oracle environment. -/
structure Run where
  env : RunEnv
  batch : List Mention

/-- Iterated `processMentions` runs, collecting each run's event trace. -/
def runAll (s : BotState) : List Run → BotState × List (List Event)
  | [] => (s, [])
  | r :: rest =>
      let (s', tr) := processMentionsRun s r.env r.batch
      let (s'', trs) := runAll s' rest
      (s'', tr :: trs)

/-! ### File backend (src/fileStateManager.mjs)

JSON documents are modelled by the `Json` type; `JSON.stringify` followed by
`JSON.parse` is the identity on such values, so the store maps file paths
directly to `Json` documents. -/

/-- JSON values (the JSON-serializable JS values). -/
inductive Json where
  | null
  | bool (b : Bool)
  | num (q : ℚ)
  | str (s : String)
  | arr (elems : List Json)
  | obj (fields : List (String × Json))

/-- `CONFIG.stateDir` with `STATE_FILE_PATH` unset
(src/fileStateManager.mjs lines 17–26; the `__dirname` base is omitted). -/
def stateDir : String := "./.state"

/-- `getStateFilePath(key)` (src/fileStateManager.mjs lines 45–53), with
the `STATE_FILE_PATH` override unset. -/
def getStateFilePath (key : String) : String :=
  stateDir ++ "/" ++ key ++ ".json"

/-- The `_meta` block added by `saveState`
(src/fileStateManager.mjs lines 69–75). -/
def metaBlock (now : ℚ) (key : String) : Json :=
  .obj [("savedAt", .num now), ("key", .str key)]

/-- The document `saveState` writes: the spread `{...data, _meta}` on an
object-valued `data` (every caller passes an object). -/
def savedDocument (data : List (String × Json)) (now : ℚ) (key : String) : Json :=
  .obj (jsUpdate data "_meta" (metaBlock now key))

/-- A filesystem operation performed by the file backend. -/
inductive FsOp where
  | mkdir (path : String)
  | write (path : String) (content : Json)
  | rename (src dst : String)

/-- The exact sequence of filesystem operations `saveState(key, data)`
performs (src/fileStateManager.mjs lines 61–93): ensure the state directory
exists, then a single `fs.writeFile` of the serialized document straight to
the target path. -/
def saveStateOps (key : String) (data : List (String × Json)) (now : ℚ) :
    List FsOp :=
  [.mkdir stateDir, .write (getStateFilePath key) (savedDocument data now key)]

/-- The contents of the state directory: file path to parsed document. -/
def FileStore : Type := List (String × Json)

/-- `saveState(key, data)` (src/fileStateManager.mjs lines 61–93) acting on
the store: add `_meta` and overwrite the file at `getStateFilePath(key)`.
Always succeeds in this model. -/
def fileSaveState (store : FileStore) (key : String)
    (data : List (String × Json)) (now : ℚ) : Bool × FileStore :=
  (true, jsUpdate store (getStateFilePath key) (savedDocument data now key))

/-- The rest-destructuring `const { _meta, ...cleanData } = data` of
`loadState` (src/fileStateManager.mjs line 138): drop the `_meta` key. -/
def stripMeta (fields : List (String × Json)) : List (String × Json) :=
  fields.filter (fun p => p.1 ≠ "_meta")

/-- `loadState(key)` (src/fileStateManager.mjs lines 100–144): `none` when
the file is absent, else the parsed document with `_meta` stripped.  The
date-validation block (lines 119–133) only logs warnings and does not alter
the data.  `saveState` only ever stores objects, so a non-object document
does not arise. -/
def fileLoadState (store : FileStore) (key : String) :
    Option (List (String × Json)) :=
  match jsLookup store (getStateFilePath key) with
  | none => none
  | some (.obj fields) => some (stripMeta fields)
  | some _ => none

/-! ### Association-list lemmas -/

theorem jsLookup_jsUpdate_self {α : Type} (l : List (String × α)) (k : String)
    (v : α) : jsLookup (jsUpdate l k v) k = some v := by
  induction l with
  | nil => simp [jsUpdate, jsLookup]
  | cons p rest ih =>
      obtain ⟨k', v'⟩ := p
      by_cases h : k' = k
      · simp [jsUpdate, jsLookup, h]
      · simp [jsUpdate, jsLookup, h, ih]

theorem mem_jsUpdate_of_ne {α : Type} {l : List (String × α)} {k : String}
    {v : α} {e : String × α} (he : e ∈ l) (hne : e.1 ≠ k) :
    e ∈ jsUpdate l k v := by
  induction l with
  | nil => cases he
  | cons p rest ih =>
      obtain ⟨k', v'⟩ := p
      by_cases h : k' = k
      · simp only [jsUpdate, if_pos h]
        rcases List.mem_cons.mp he with rfl | hmem
        · exact absurd h (by simpa using hne)
        · exact List.mem_cons_of_mem _ hmem
      · simp only [jsUpdate, if_neg h]
        rcases List.mem_cons.mp he with rfl | hmem
        · exact List.mem_cons_self _ _
        · exact List.mem_cons_of_mem _ (ih hmem)

theorem jsUpdate_of_not_mem {α : Type} {l : List (String × α)} {k : String}
    (v : α) (h : k ∉ l.map Prod.fst) : jsUpdate l k v = l ++ [(k, v)] := by
  induction l with
  | nil => simp [jsUpdate]
  | cons p rest ih =>
      obtain ⟨k', v'⟩ := p
      simp only [List.map_cons, List.mem_cons] at h
      push_neg at h
      simp [jsUpdate, Ne.symm h.1, ih h.2]

theorem keys_jsUpdate {α : Type} (l : List (String × α)) (k : String) (v : α) :
    (jsUpdate l k v).map Prod.fst =
      if k ∈ l.map Prod.fst then l.map Prod.fst else l.map Prod.fst ++ [k] := by
  induction l with
  | nil => simp [jsUpdate]
  | cons p rest ih =>
      obtain ⟨k', v'⟩ := p
      by_cases h : k' = k
      · simp [jsUpdate, h]
      · simp only [jsUpdate, if_neg h, List.map_cons, ih, List.mem_cons]
        by_cases hm : k ∈ rest.map Prod.fst
        · simp [hm, Ne.symm h]
        · simp [hm, Ne.symm h]

theorem keys_nodup_jsUpdate {α : Type} {l : List (String × α)} {k : String}
    {v : α} (h : (l.map Prod.fst).Nodup) :
    ((jsUpdate l k v).map Prod.fst).Nodup := by
  rw [keys_jsUpdate]
  by_cases hm : k ∈ l.map Prod.fst
  · simpa [hm] using h
  · simpa [hm] using List.Nodup.append h (by simp) (by simpa using hm)

/-! ### Claim C10 — file backend save/load round trip -/

/-- Claim C10: for every key `k` and JSON object `d` without a top-level
`_meta` field, if `saveState(k, d)` succeeds then `loadState(k)` returns
exactly `d`: the `_meta` block added on save is stripped again on load and
no other field is altered. -/
theorem c10_file_roundtrip (store : FileStore) (key : String)
    (data : List (String × Json)) (now : ℚ)
    (h : "_meta" ∉ data.map Prod.fst) :
    fileLoadState (fileSaveState store key data now).2 key = some data := by
  unfold fileLoadState fileSaveState savedDocument
  rw [jsLookup_jsUpdate_self]
  have hupd : jsUpdate data "_meta" (metaBlock now key) =
      data ++ [("_meta", metaBlock now key)] := jsUpdate_of_not_mem _ h
  have hall : ∀ p ∈ data, p.1 ≠ "_meta" := by
    intro p hp hmeta
    exact h (hmeta ▸ List.mem_map_of_mem Prod.fst hp)
  simp only [hupd, stripMeta, List.filter_append]
  rw [List.filter_eq_self.mpr (by intro p hp; simpa using hall p hp)]
  simp

/-- Witness for C10 at a concrete store and document. -/
theorem c10_file_roundtrip_witness :
    ("_meta" ∉ ([("a", Json.num 1), ("b", Json.str "x")].map Prod.fst)) ∧
    fileLoadState
      (fileSaveState [] "state" [("a", Json.num 1), ("b", Json.str "x")] 5).2
      "state" = some [("a", Json.num 1), ("b", Json.str "x")] :=
  ⟨by decide, c10_file_roundtrip [] "state" _ 5 (by decide)⟩

/-! ### Claim C5 — the file backend write is not atomic -/

/-- Claim C5 counterexample: `saveState` performs a single direct write to
the target path — there is no write to a temporary file and no rename, so
the claimed write-to-temp-then-rename pattern is absent.  Shown at the
concrete key `state` with an empty document. -/
theorem c5_counterexample :
    saveStateOps "state" [] 0 =
      [FsOp.mkdir "./.state",
       FsOp.write "./.state/state.json" (savedDocument [] 0 "state")] ∧
    (∀ a b, FsOp.rename a b ∉ saveStateOps "state" [] 0) ∧
    (∀ op ∈ saveStateOps "state" [] 0, ∀ p c, op = FsOp.write p c →
      p = "./.state/state.json") := by
  refine ⟨rfl, ?_, ?_⟩
  · intro a b hmem
    simp [saveStateOps] at hmem
  · intro op hop p c heq
    simp only [saveStateOps, List.mem_cons, List.mem_singleton] at hop
    rcases hop with h | h | h
    · rw [h] at heq; cases heq
    · rw [h] at heq; cases heq; rfl
    · cases h

/-- Claim C5 as amended: for every key, document and time, `saveState`
performs exactly the directory check followed by one direct write of the
serialized document to the target path, and never a rename — so a crash
mid-write can leave a partially written target file. -/
theorem c5_direct_write (key : String) (data : List (String × Json)) (now : ℚ) :
    saveStateOps key data now =
      [FsOp.mkdir stateDir,
       FsOp.write (getStateFilePath key) (savedDocument data now key)] ∧
    ∀ a b, FsOp.rename a b ∉ saveStateOps key data now := by
  refine ⟨rfl, ?_⟩
  intro a b hmem
  simp [saveStateOps] at hmem

/-- Witness for C5 at a concrete key and document. -/
theorem c5_direct_write_witness :
    saveStateOps "cursor" [("id", Json.str "7")] 3 =
      [FsOp.mkdir stateDir,
       FsOp.write (getStateFilePath "cursor")
         (savedDocument [("id", Json.str "7")] 3 "cursor")] ∧
    ∀ a b, FsOp.rename a b ∉ saveStateOps "cursor" [("id", Json.str "7")] 3 :=
  c5_direct_write "cursor" [("id", Json.str "7")] 3

/-! ### Claim C8 — cursor save: falsy rejection and write effects -/

/-- A falsy mention-id argument: null/undefined or the empty string. -/
def falsyId (mid : Option String) : Prop := mid = none ∨ mid = some ""

/-- Claim C8: a falsy id makes `saveLastMentionId` return false and leave
all state unchanged, on both backends; a non-empty id makes the serving
backend set the cursor to the id, bump `processedCount` by one and stamp
`lastProcessedAt` with the current time (and makes the façade's file path
leave every other block of the document unchanged). -/
theorem c8_save_cursor :
    (∀ (s : BotState) (now : ℤ) (mid : Option String), falsyId mid →
        saveLastMentionId s mid now = (false, s)) ∧
    (∀ (s : BotState) (now : ℤ) (id : String), id ≠ "" →
        (saveLastMentionId s (some id) now).1 = true ∧
        (saveLastMentionId s (some id) now).2.twitter.lastMentionId = some id ∧
        (saveLastMentionId s (some id) now).2.twitter.processedCount =
          s.twitter.processedCount + 1 ∧
        (saveLastMentionId s (some id) now).2.twitter.lastProcessedAt = some now ∧
        (saveLastMentionId s (some id) now).2.replies = s.replies ∧
        (saveLastMentionId s (some id) now).2.errors = s.errors ∧
        (saveLastMentionId s (some id) now).2.executionMetrics =
          s.executionMetrics) ∧
    (∀ (d : DynamoStore) (now : ℤ) (mid : Option String), falsyId mid →
        dynamoSaveLastMentionId d mid now = (false, d)) ∧
    (∀ (d : DynamoStore) (now : ℤ) (id : String), id ≠ "" →
        (dynamoSaveLastMentionId d (some id) now).1 = true ∧
        ∃ r, (dynamoSaveLastMentionId d (some id) now).2.lastMention = some r ∧
          r.id = id ∧
          r.processedCount =
            (d.lastMention.map DynamoMentionRec.processedCount).getD 0 + 1 ∧
          r.lastProcessedAt = now ∧
          (dynamoSaveLastMentionId d (some id) now).2.tweets = d.tweets ∧
          (dynamoSaveLastMentionId d (some id) now).2.heroStats = d.heroStats ∧
          (dynamoSaveLastMentionId d (some id) now).2.replyCount = d.replyCount) := by
  refine ⟨?_, ?_, ?_, ?_⟩
  · rintro s now mid (rfl | rfl) <;> simp [saveLastMentionId]
  · intro s now id h
    simp [saveLastMentionId, h]
  · rintro d now mid (rfl | rfl) <;> simp [dynamoSaveLastMentionId]
  · intro d now id h
    have hd : dynamoSaveLastMentionId d (some id) now = (true,
        { d with lastMention := some (DynamoMentionRec.mk id ((d.lastMention.map DynamoMentionRec.processedCount).getD 0 + 1) now now) }) := by
      simp [dynamoSaveLastMentionId, h]
    rw [hd]
    exact ⟨rfl, _, rfl, rfl, rfl, rfl, rfl, rfl, rfl⟩

/-- Witness for C8: the falsy rejections and a concrete successful save on
each backend. -/
theorem c8_save_cursor_witness :
    falsyId (some "") ∧
    saveLastMentionId getDefaultState (some "") 2 = (false, getDefaultState) ∧
    ("17" : String) ≠ "" ∧
    (saveLastMentionId getDefaultState (some "17") 2).2.twitter.lastMentionId =
      some "17" ∧
    (dynamoSaveLastMentionId ⟨none, [], [], 0⟩ (some "17") 2).1 = true := by
  refine ⟨Or.inr rfl, ?_, by decide, ?_, ?_⟩
  · exact (c8_save_cursor.1 getDefaultState 2 (some "") (Or.inr rfl))
  · exact ((c8_save_cursor.2.1 getDefaultState 2 "17" (by decide)).2.1)
  · exact ((c8_save_cursor.2.2.2 ⟨none, [], [], 0⟩ 2 "17" (by decide)).1)

/-! ### Claim C3 — markTweetAsReplied postcondition -/

theorem stampRepliedAt_heroName (md : ReplyMeta) (now : ℤ) :
    (stampRepliedAt md now).heroName = md.heroName := by
  obtain ⟨ra, hn, au, rt, mt⟩ := md
  cases ra <;> rfl

theorem stampRepliedAt_repliedAt (md : ReplyMeta) (now : ℤ) :
    (stampRepliedAt md now).repliedAt = some (md.repliedAt.getD now) := by
  obtain ⟨ra, hn, au, rt, mt⟩ := md
  cases ra <;> rfl

theorem stampRepliedAt_idem (md : ReplyMeta) (now : ℤ) :
    stampRepliedAt (stampRepliedAt md now) now = stampRepliedAt md now := by
  obtain ⟨ra, hn, au, rt, mt⟩ := md
  cases ra <;> rfl

/-- Claim C3 counterexample.  Two concrete refutations of the claim as
stated: (1) on the DynamoDB path, marking a tweet with metadata that has no
`heroName` leaves the reply count at 0 instead of incrementing it; (2) on
the file path, a history entry replied-to at time 0 is still present after a
mark at time 10^12 ms (far beyond the 7-day retention window of
`CONFIG.retentionDays`) — no pruning happens. -/
theorem c3_counterexample :
    (markTweetAsRepliedDynamo ⟨none, [], [], 0⟩ "100"
        ⟨none, none, "u", "", "direct"⟩ 0).2.replyCount = 0 ∧
    ("9", (⟨some 0, none, "v", "", "direct"⟩ : ReplyMeta)) ∈
      (markTweetAsReplied
          { getDefaultState with replies :=
              { count := 1, byHero := [],
                history := [("9", ⟨some 0, none, "v", "", "direct"⟩)] } }
          "100" ⟨none, none, "u", "", "direct"⟩ 1000000000000).2.replies.history := by
  constructor
  · rfl
  · simp [markTweetAsReplied, stampRepliedAt, jsUpdate]

/-- Claim C3 as amended: a successful `markTweetAsReplied(id, metadata)`
stamps `repliedAt` on the metadata if absent; the file path records the
history entry, increments `replies.count` for every metadata and increments
`replies.byHero[heroName.toLowerCase()]` exactly when `heroName` is
present; the DynamoDB path stores the tweet record but increments the reply
count and hero stats only when `heroName` is present.  Neither path prunes
old history entries. -/
theorem c3_mark_replied (s : BotState) (d : DynamoStore) (id : String)
    (metadata : ReplyMeta) (now : ℤ) :
    (markTweetAsReplied s id metadata now).1 = true ∧
    (markTweetAsReplied s id metadata now).2.replies.count =
      s.replies.count + 1 ∧
    jsLookup (markTweetAsReplied s id metadata now).2.replies.history id =
      some (stampRepliedAt metadata now) ∧
    (stampRepliedAt metadata now).repliedAt =
      some (metadata.repliedAt.getD now) ∧
    (∀ h, metadata.heroName = some h →
      jsLookup (markTweetAsReplied s id metadata now).2.replies.byHero
          (jsToLowerCase h) =
        some ((jsLookup s.replies.byHero (jsToLowerCase h)).getD 0 + 1)) ∧
    (metadata.heroName = none →
      (markTweetAsReplied s id metadata now).2.replies.byHero =
        s.replies.byHero) ∧
    (∀ e ∈ s.replies.history, e.1 ≠ id →
      e ∈ (markTweetAsReplied s id metadata now).2.replies.history) ∧
    (markTweetAsRepliedDynamo d id metadata now).1 = true ∧
    jsLookup (markTweetAsRepliedDynamo d id metadata now).2.tweets id =
      some (stampRepliedAt metadata now) ∧
    (metadata.heroName = none →
      (markTweetAsRepliedDynamo d id metadata now).2.replyCount =
          d.replyCount ∧
      (markTweetAsRepliedDynamo d id metadata now).2.heroStats = d.heroStats) ∧
    (∀ h, metadata.heroName = some h →
      (markTweetAsRepliedDynamo d id metadata now).2.replyCount =
          d.replyCount + 1 ∧
      jsLookup (markTweetAsRepliedDynamo d id metadata now).2.heroStats
          (jsToLowerCase h) =
        some ((jsLookup d.heroStats (jsToLowerCase h)).getD 0 + 1)) := by
  have hhero := stampRepliedAt_heroName metadata now
  refine ⟨rfl, rfl, ?_, ?_, ?_, ?_, ?_, ?_, ?_, ?_, ?_⟩
  · exact jsLookup_jsUpdate_self _ _ _
  · exact stampRepliedAt_repliedAt metadata now
  · intro h hh
    simp [markTweetAsReplied, hhero, hh, jsIncr, jsLookup_jsUpdate_self]
  · intro hh
    simp [markTweetAsReplied, hhero, hh]
  · intro e he hne
    exact mem_jsUpdate_of_ne he hne
  · simp only [markTweetAsRepliedDynamo, dynamoMarkTweetAsReplied]
    cases hh : (stampRepliedAt metadata now).heroName <;> simp [hh]
  · simp only [markTweetAsRepliedDynamo, dynamoMarkTweetAsReplied,
      stampRepliedAt_idem]
    cases hh : (stampRepliedAt metadata now).heroName <;>
      simp [hh, jsLookup_jsUpdate_self]
  · intro hh
    simp [markTweetAsRepliedDynamo, dynamoMarkTweetAsReplied, hhero ▸ hh,
      hhero.trans hh]
  · intro h hh
    simp [markTweetAsRepliedDynamo, dynamoMarkTweetAsReplied,
      hhero.trans hh, jsIncr, jsLookup_jsUpdate_self]

/-- Witness for C3 (amended) at a concrete state and metadata. -/
theorem c3_mark_replied_witness :
    (markTweetAsReplied getDefaultState "55"
        ⟨none, some "Zed", "u", "", "direct"⟩ 9).2.replies.count = 1 ∧
    ((⟨none, some "Zed", "u", "", "direct"⟩ : ReplyMeta).heroName = some "Zed" →
      jsLookup (markTweetAsReplied getDefaultState "55"
          ⟨none, some "Zed", "u", "", "direct"⟩ 9).2.replies.byHero "zed" =
        some 1) := by
  have h := c3_mark_replied getDefaultState ⟨none, [], [], 0⟩ "55"
    ⟨none, some "Zed", "u", "", "direct"⟩ 9
  refine ⟨h.2.1, ?_⟩
  intro hh
  have hz := h.2.2.2.2.1 "Zed" hh
  have hlow : jsToLowerCase "Zed" = "zed" := by decide
  rw [hlow] at hz
  rw [hz]
  rfl

/-! ### Claims C6 and C7 — execution metrics -/

/-- One paired `startExecution`/`endExecution` bracket, described by its
oracle data: the clock at start and at end, the generated execution id,
the success flag and the stats object passed to `endExecution`. -/
structure RunDesc where
  startTime : ℤ
  endTime : ℤ
  execId : String
  success : Bool
  stats : RunStats
  deriving DecidableEq, Repr

/-- The metrics after one `startExecution(); …; endExecution(success, stats)`
bracket. -/
def execRun (m : ExecMetrics) (r : RunDesc) : ExecMetrics :=
  endExecutionUpdate (startExecutionUpdate m r.startTime r.execId)
    r.success r.stats r.endTime

/-- The success-rate update exactly as the spec words it, for comparison
with the code: `min(100, (prevSuccesses + (success?1:0)) / n * 100)` with
`prevSuccesses = min(successRate*(n-1)/100, n-1)` — without the code's
falsy-default on a stored `successRate` of 0. -/
def specSuccessRateStep (successRate n : ℚ) (success : Bool) : ℚ :=
  min 100
    ((min (successRate * (n - 1) / 100) (n - 1) +
        (if success then 1 else 0)) / n * 100)

theorem execRun_totalRuns (m : ExecMetrics) (r : RunDesc) :
    (execRun m r).totalRuns = m.totalRuns + 1 := by
  simp [execRun, endExecutionUpdate, startExecutionUpdate]

theorem execRun_successRate (m : ExecMetrics) (r : RunDesc) :
    (execRun m r).successRate =
      min ((min ((if m.successRate = 0 then 100 else m.successRate) *
              (m.totalRuns : ℚ) / 100) (m.totalRuns : ℚ) +
            (if r.success then 1 else 0)) / ((m.totalRuns : ℚ) + 1) * 100)
        100 := by
  simp only [execRun, endExecutionUpdate, startExecutionUpdate]
  have h1 : m.totalRuns + 1 ≠ 0 := Nat.succ_ne_zero _
  cases hm : m.totalRuns with
  | zero => norm_num
  | succ k =>
      have h2 : k + 1 + 1 > 1 := by omega
      simp only [if_neg (Nat.succ_ne_zero _), if_pos h2]
      push_cast
      ring_nf

theorem execRun_avg (m : ExecMetrics) (r : RunDesc) :
    (execRun m r).avgRunDuration =
      (m.avgRunDuration * (m.totalRuns : ℚ) + (r.endTime - r.startTime)) /
        ((m.totalRuns : ℚ) + 1) := by
  simp only [execRun, endExecutionUpdate, startExecutionUpdate]
  cases hm : m.totalRuns with
  | zero => norm_num
  | succ k =>
      have h2 : k + 1 + 1 > 1 := by omega
      simp only [if_neg (Nat.succ_ne_zero _), if_pos h2, Option.getD_some]
      have : (0 : Nat) < k + 1 + 1 - 1 := by omega
      simp only [if_pos this]
      push_cast
      ring_nf

theorem execRun_successRate_bound (m : ExecMetrics) (r : RunDesc)
    (h : 0 ≤ m.successRate) :
    0 ≤ (execRun m r).successRate ∧ (execRun m r).successRate ≤ 100 := by
  rw [execRun_successRate]
  constructor
  · apply le_min _ (by norm_num)
    apply mul_nonneg _ (by norm_num)
    apply div_nonneg _ (by positivity)
    apply add_nonneg
    · apply le_min _ (Nat.cast_nonneg _)
      apply div_nonneg _ (by norm_num)
      apply mul_nonneg _ (Nat.cast_nonneg _)
      split <;> [norm_num; exact h]
    · split <;> norm_num
  · exact min_le_right _ _

theorem foldl_execRun_successRate_bound (runs : List RunDesc) :
    ∀ m : ExecMetrics, 0 ≤ m.successRate → m.successRate ≤ 100 →
      0 ≤ (runs.foldl execRun m).successRate ∧
      (runs.foldl execRun m).successRate ≤ 100 := by
  induction runs with
  | nil => exact fun m h0 h1 => ⟨h0, h1⟩
  | cons r rest ih =>
      intro m h0 _
      have hb := execRun_successRate_bound m r h0
      exact ih (execRun m r) hb.1 hb.2

/-- Claim C6 counterexample.  Starting from the default state, a failed run
leaves `successRate = 0`; on the next failed run the code's
`successRate || 100` falsy-default treats the stored 0 as 100, producing
50 — while the formula the claim states (without the falsy-default)
produces 0. -/
theorem c6_counterexample :
    (execRun getDefaultState.executionMetrics ⟨0, 0, "r", false, ⟨0, 0, 0, 0, 0⟩⟩).successRate = 0 ∧
    (execRun (execRun getDefaultState.executionMetrics ⟨0, 0, "r", false, ⟨0, 0, 0, 0, 0⟩⟩)
        ⟨0, 0, "r", false, ⟨0, 0, 0, 0, 0⟩⟩).successRate = 50 ∧
    specSuccessRateStep 0 2 false = 0 ∧
    (50 : ℚ) ≠ 0 := by
  refine ⟨?_, ?_, ?_, by norm_num⟩
  · simp [execRun, endExecutionUpdate, startExecutionUpdate, getDefaultState]
  · norm_num [execRun, endExecutionUpdate, startExecutionUpdate, getDefaultState]
  · norm_num [specSuccessRateStep]

/-- Claim C6 as amended: over every sequence of paired
`startExecution`/`endExecution` calls from the default state, the persisted
`successRate` stays within [0, 100]; each `endExecution` computes it as
`min(100, (prevSuccesses + (success?1:0)) / totalRuns * 100)` with
`prevSuccesses = min(sr0 * (totalRuns-1)/100, totalRuns-1)`, where `sr0` is
the stored success rate with 100 substituted when the stored value is 0
(the code's `successRate || 100` falsy default). -/
theorem c6_success_rate :
    (∀ runs : List RunDesc,
      0 ≤ (runs.foldl execRun getDefaultState.executionMetrics).successRate ∧
      (runs.foldl execRun getDefaultState.executionMetrics).successRate ≤ 100) ∧
    (∀ (m : ExecMetrics) (r : RunDesc),
      (execRun m r).successRate =
        min ((min ((if m.successRate = 0 then 100 else m.successRate) *
                (m.totalRuns : ℚ) / 100) (m.totalRuns : ℚ) +
              (if r.success then 1 else 0)) / ((m.totalRuns : ℚ) + 1) * 100)
          100) := by
  constructor
  · intro runs
    exact foldl_execRun_successRate_bound runs _ (by norm_num [getDefaultState])
      (by norm_num [getDefaultState])
  · exact execRun_successRate

theorem foldl_execRun_avg (runs : List RunDesc) :
    ∀ m : ExecMetrics, runs ≠ [] →
      (runs.foldl execRun m).avgRunDuration =
        (m.avgRunDuration * (m.totalRuns : ℚ) +
            (runs.map (fun r => r.endTime - r.startTime)).sum) /
          ((m.totalRuns : ℚ) + runs.length) ∧
      (runs.foldl execRun m).totalRuns = m.totalRuns + runs.length := by
  induction runs with
  | nil => exact fun m h => absurd rfl h
  | cons r rest ih =>
      intro m _
      rcases eq_or_ne rest [] with rfl | hrest
      · simp only [List.foldl_cons, List.foldl_nil, List.map_cons,
          List.map_nil, List.sum_cons, List.sum_nil, List.length_cons,
          List.length_nil]
        exact ⟨by rw [execRun_avg]; push_cast; ring_nf, by
          rw [execRun_totalRuns]⟩
      · have hrec := ih (execRun m r) hrest
        have htot : (execRun m r).totalRuns = m.totalRuns + 1 :=
          execRun_totalRuns m r
        have havg := execRun_avg m r
        constructor
        · rw [List.foldl_cons, hrec.1, havg, htot]
          have hne : ((m.totalRuns : ℚ) + 1) ≠ 0 := by positivity
          have hne2 : ((m.totalRuns : ℚ) + 1 + (rest.length : ℚ)) ≠ 0 := by
            positivity
          field_simp
          ring
        · rw [List.foldl_cons, hrec.2, htot, List.length_cons]
          omega

/-- Claim C7: for every nonempty sequence of paired
`startExecution`/`endExecution` calls from the default state, with run
durations `dᵢ = endTimeᵢ - startTimeᵢ`, the persisted `avgRunDuration`
equals the arithmetic mean of the durations (exactly, over rationals). -/
theorem c7_rolling_average (runs : List RunDesc) (h : runs ≠ []) :
    (runs.foldl execRun getDefaultState.executionMetrics).avgRunDuration =
      (runs.map (fun r => r.endTime - r.startTime)).sum / (runs.length : ℚ) := by
  have := (foldl_execRun_avg runs getDefaultState.executionMetrics h).1
  simpa [getDefaultState] using this

/-! ### Mention-loop lemmas -/

/-- The state a loop outcome carries. -/
def LoopOutcome.state : LoopOutcome → BotState
  | .completed s _ _ => s
  | .aborted s _ _ => s

/-- The event trace a loop outcome carries. -/
def LoopOutcome.trace : LoopOutcome → List Event
  | .completed _ _ tr => tr
  | .aborted _ _ tr => tr

/-- The ids passed to `saveLastMentionId` during a trace, in order. -/
def savedIds (tr : List Event) : List String :=
  tr.filterMap fun e =>
    match e with
    | .cursorSave i => some i
    | _ => none

theorem savedIds_append (tr tr' : List Event) :
    savedIds (tr ++ tr') = savedIds tr ++ savedIds tr' :=
  List.filterMap_append _ _ _

theorem saveLastMentionId_parts (s : BotState) (i : String) (now : ℤ) :
    (saveLastMentionId s (some i) now).2.executionMetrics = s.executionMetrics ∧
    (saveLastMentionId s (some i) now).2.replies = s.replies ∧
    (saveLastMentionId s (some i) now).2.errors = s.errors ∧
    (i ≠ "" →
      (saveLastMentionId s (some i) now).2.twitter.lastMentionId = some i) ∧
    (i = "" → (saveLastMentionId s (some i) now).2 = s) := by
  by_cases h : i = "" <;> simp [saveLastMentionId, h]

theorem markTweetAsReplied_parts (s : BotState) (id : String) (md : ReplyMeta)
    (now : ℤ) :
    (markTweetAsReplied s id md now).2.executionMetrics = s.executionMetrics ∧
    (markTweetAsReplied s id md now).2.twitter = s.twitter ∧
    (markTweetAsReplied s id md now).2.errors = s.errors ∧
    (markTweetAsReplied s id md now).2.replies.history =
      jsUpdate s.replies.history id (stampRepliedAt md now) :=
  ⟨rfl, rfl, rfl, rfl⟩

theorem recordError_parts (s : BotState) (message context : String) (now : ℤ) :
    (recordError s message context now).executionMetrics = s.executionMetrics ∧
    (recordError s message context now).twitter = s.twitter ∧
    (recordError s message context now).replies = s.replies := by
  unfold recordError
  split <;> exact ⟨rfl, rfl, rfl⟩

/-- Presence in a JS map survives any update. -/
theorem jsLookup_isSome_jsUpdate {α : Type} {l : List (String × α)} {i : String}
    (h : (jsLookup l i).isSome) (k : String) (v : α) :
    (jsLookup (jsUpdate l k v) i).isSome := by
  induction l with
  | nil => simp [jsLookup] at h
  | cons p rest ih =>
      obtain ⟨k', v'⟩ := p
      by_cases hk : k' = k
      · by_cases hi : k' = i <;> simp_all [jsUpdate, jsLookup]
      · by_cases hi : k' = i <;> simp_all [jsUpdate, jsLookup]

/-- What one non-aborting loop iteration may do to the state and the trace:
`executionMetrics` untouched, no `endExec` event, at most one post and only
to the mention's own id, the history changed at most at the mention's own
id, a full skip when the dedup check fires, and at most one cursor save —
to the mention's own id. -/
def MentionOutcomeSpec (s : BotState) (m : Mention) (s' : BotState)
    (evs : List Event) : Prop :=
  s'.executionMetrics = s.executionMetrics ∧
  (∀ b, Event.endExec b ∉ evs) ∧
  (∀ i, evs.count (Event.post i) ≤ if i = m.id then 1 else 0) ∧
  (s'.replies.history = s.replies.history ∨
    ∃ md, s'.replies.history = jsUpdate s.replies.history m.id md) ∧
  (hasRepliedToTweet s m.id = true → s' = s ∧ evs = []) ∧
  (savedIds evs = [] ∨ savedIds evs = [m.id]) ∧
  (savedIds evs = [] → s'.twitter.lastMentionId = s.twitter.lastMentionId) ∧
  (m.id ≠ "" → savedIds evs = [m.id] →
    s'.twitter.lastMentionId = some m.id)

theorem mention_spec_quiet (_env : RunEnv) (s : BotState) (m : Mention)
    {s₁ : BotState} {st₂ : RunStats} {s' : BotState} {st' : RunStats}
    {evs : List Event}
    (hm1 : s₁.executionMetrics = s.executionMetrics)
    (hrep1 : s₁.replies = s.replies)
    (htw1 : s₁.twitter = s.twitter)
    (hrep : hasRepliedToTweet s m.id = true → s₁ = s)
    (heq : (Except.ok (s₁, st₂, ([] : List Event)) :
        Except RunStats (BotState × RunStats × List Event)) =
        .ok (s', st', evs)) :
    MentionOutcomeSpec s m s' evs := by
  simp only [Except.ok.injEq, Prod.mk.injEq] at heq
  obtain ⟨hs, _, hev⟩ := heq
  subst hs; subst hev
  refine ⟨hm1, by simp, by simp [List.count_nil],
    Or.inl (congrArg Replies.history hrep1),
    fun hr => ⟨hrep hr, rfl⟩, Or.inl rfl,
    fun _ => congrArg TwitterCursor.lastMentionId htw1,
    ?_⟩
  intro _ hsv
  simp [savedIds] at hsv

theorem mention_spec_skipSave (env : RunEnv) (s : BotState) (m : Mention)
    {st₂ : RunStats} {s' : BotState} {st' : RunStats} {evs : List Event}
    (h1 : ¬ hasRepliedToTweet s m.id = true)
    (heq : (Except.ok ((saveLastMentionId s (some m.id) env.now).2, st₂,
        ([.cursorSave m.id] : List Event)) :
        Except RunStats (BotState × RunStats × List Event)) =
        .ok (s', st', evs)) :
    MentionOutcomeSpec s m s' evs := by
  have hsave := saveLastMentionId_parts s m.id env.now
  simp only [Except.ok.injEq, Prod.mk.injEq] at heq
  obtain ⟨hs, _, hev⟩ := heq
  subst hs; subst hev
  refine ⟨hsave.1, by simp, ?_,
    Or.inl (congrArg Replies.history hsave.2.1),
    fun hr => absurd hr h1, Or.inr rfl, by simp [savedIds], ?_⟩
  · intro i
    by_cases hi : i = m.id <;> simp [List.count_cons, hi]
  · intro hne _
    exact hsave.2.2.2.1 hne

theorem mention_spec_post (env : RunEnv) (s : BotState) (m : Mention)
    {s₁ : BotState} {st₂ : RunStats} {s' : BotState} {st' : RunStats}
    {evs : List Event}
    (h1 : ¬ hasRepliedToTweet s m.id = true)
    (hm1 : s₁.executionMetrics = s.executionMetrics)
    (hh1 : s₁.replies.history = s.replies.history ∨
      ∃ md, s₁.replies.history = jsUpdate s.replies.history m.id md)
    (heq : (Except.ok ((saveLastMentionId s₁ (some m.id) env.now).2, st₂,
        ([.post m.id, .cursorSave m.id] : List Event)) :
        Except RunStats (BotState × RunStats × List Event)) =
        .ok (s', st', evs)) :
    MentionOutcomeSpec s m s' evs := by
  have hsave1 := saveLastMentionId_parts s₁ m.id env.now
  simp only [Except.ok.injEq, Prod.mk.injEq] at heq
  obtain ⟨hs, _, hev⟩ := heq
  subst hs; subst hev
  refine ⟨hsave1.1.trans hm1, by simp, ?_,
    (congrArg Replies.history hsave1.2.1) ▸ hh1,
    fun hr => absurd hr h1, Or.inr rfl, by simp [savedIds], ?_⟩
  · intro i
    by_cases hi : i = m.id <;> simp [List.count_cons, hi]
  · intro hne _
    exact hsave1.2.2.2.1 hne

set_option maxHeartbeats 1600000 in
/-- Everything `processMention` can do when it does not abort. -/
theorem processMention_ok_spec (env : RunEnv) (s : BotState) (st : RunStats)
    (m : Mention) (s' : BotState) (st' : RunStats) (evs : List Event)
    (h : processMention env s st m = .ok (s', st', evs)) :
    MentionOutcomeSpec s m s' evs := by
  unfold processMention at h
  split at h
  next h1 =>
    exact mention_spec_quiet env s m rfl rfl rfl (fun _ => rfl) h
  next h1 =>
    split at h
    next => exact mention_spec_skipSave env s m h1 h
    next =>
      split at h
      next => exact mention_spec_skipSave env s m h1 h
      next =>
        split at h
        next => exact mention_spec_skipSave env s m h1 h
        next =>
          split at h
          next => cases h
          next => exact mention_spec_skipSave env s m h1 h
          next hero hr =>
            split at h
            next h5 =>
              exact mention_spec_quiet env s m
                (recordError_parts s _ _ env.now).1
                (recordError_parts s _ _ env.now).2.2
                (recordError_parts s _ _ env.now).2.1
                (fun hr2 => absurd hr2 h1) h
            next h5 =>
              repeat' split at h
              all_goals
                first
                | exact mention_spec_post env s m h1
                    (markTweetAsReplied_parts s m.id _ env.now).1
                    (Or.inr ⟨_, (markTweetAsReplied_parts s m.id _ env.now).2.2.2⟩) h
                | exact mention_spec_post env s m h1
                    (recordError_parts s _ _ env.now).1
                    (Or.inl (congrArg Replies.history
                      (recordError_parts s _ _ env.now).2.2)) h

theorem hasReplied_preserved {s s1 : BotState} {mid : String}
    (hd : s1.replies.history = s.replies.history ∨
      ∃ md, s1.replies.history = jsUpdate s.replies.history mid md)
    {i : String} (hi : hasRepliedToTweet s i = true) :
    hasRepliedToTweet s1 i = true := by
  unfold hasRepliedToTweet at hi ⊢
  rcases hd with h | ⟨md, h⟩
  · rw [h]; exact hi
  · rw [h]; exact jsLookup_isSome_jsUpdate hi _ _

theorem historyKeysNodup_preserved {s s1 : BotState} {mid : String}
    (hd : s1.replies.history = s.replies.history ∨
      ∃ md, s1.replies.history = jsUpdate s.replies.history mid md)
    (hn : (s.replies.history.map Prod.fst).Nodup) :
    (s1.replies.history.map Prod.fst).Nodup := by
  rcases hd with h | ⟨md, h⟩
  · rw [h]; exact hn
  · rw [h]; exact keys_nodup_jsUpdate hn

theorem processLoop_cons_ok (env : RunEnv) {s : BotState} {st : RunStats}
    {m : Mention} {s1 : BotState} {st1 : RunStats} {evs : List Event}
    (rest : List Mention)
    (hpm : processMention env s st m = .ok (s1, st1, evs)) :
    (processLoop env s st (m :: rest)).state =
      (processLoop env s1 st1 rest).state ∧
    (processLoop env s st (m :: rest)).trace =
      evs ++ (processLoop env s1 st1 rest).trace := by
  cases hrec : processLoop env s1 st1 rest <;>
    simp [processLoop, hpm, hrec, LoopOutcome.state, LoopOutcome.trace]

theorem processLoop_cons_error (env : RunEnv) {s : BotState} {st : RunStats}
    {m : Mention} {st1 : RunStats} (rest : List Mention)
    (hpm : processMention env s st m = .error st1) :
    processLoop env s st (m :: rest) = .aborted s st1 [] := by
  simp [processLoop, hpm]

/-- The batch-level invariants of the mention loop: `executionMetrics` is
never touched, no `endExec` event is emitted, posts to an id are bounded by
the id's occurrences in the batch, no post goes to an already-replied id
(and replied-ness is stable), history-key uniqueness is preserved, and the
cursor saves form a subsequence of the batch ids. -/
theorem processLoop_spec (env : RunEnv) (ms : List Mention) :
    ∀ (s : BotState) (st : RunStats),
      (processLoop env s st ms).state.executionMetrics = s.executionMetrics ∧
      (∀ b, Event.endExec b ∉ (processLoop env s st ms).trace) ∧
      (∀ i, ((processLoop env s st ms).trace.count (Event.post i)) ≤
          ((ms.map Mention.id).count i)) ∧
      (∀ i, hasRepliedToTweet s i = true →
          ((processLoop env s st ms).trace.count (Event.post i)) = 0 ∧
          hasRepliedToTweet (processLoop env s st ms).state i = true) ∧
      ((s.replies.history.map Prod.fst).Nodup →
          (((processLoop env s st ms).state.replies.history.map Prod.fst).Nodup)) ∧
      (savedIds (processLoop env s st ms).trace).Sublist (ms.map Mention.id) := by
  induction ms with
  | nil =>
      intro s st
      refine ⟨rfl, by simp [processLoop, LoopOutcome.trace], ?_, ?_, fun h => h, ?_⟩
      · intro i; simp [processLoop, LoopOutcome.trace]
      · intro i hi
        exact ⟨by simp [processLoop, LoopOutcome.trace], hi⟩
      · simp [processLoop, LoopOutcome.trace, savedIds]
  | cons m rest ih =>
      intro s st
      cases hpm : processMention env s st m with
      | error st1 =>
          rw [processLoop_cons_error env rest hpm]
          refine ⟨rfl, by simp [LoopOutcome.trace], ?_, ?_, fun h => h, ?_⟩
          · intro i; simp [LoopOutcome.trace]
          · intro i hi
            exact ⟨by simp [LoopOutcome.trace], hi⟩
          · simp [LoopOutcome.trace, savedIds]
      | ok out =>
          obtain ⟨s1, st1, evs⟩ := out
          obtain ⟨hstate, htrace⟩ := processLoop_cons_ok env rest hpm
          have hm := processMention_ok_spec env s st m s1 st1 evs hpm
          obtain ⟨hmA, hmB, hmC, hmD, hmE, hmF, hmG, hmH⟩ := hm
          have IH := ih s1 st1
          obtain ⟨ihA, ihB, ihC, ihD, ihE, ihF⟩ := IH
          rw [hstate, htrace]
          refine ⟨ihA.trans hmA, ?_, ?_, ?_, fun hn => ihE (historyKeysNodup_preserved hmD hn), ?_⟩
          · intro b
            simp only [List.mem_append]
            exact fun hb => hb.elim (hmB b) (ihB b)
          · intro i
            rw [List.count_append]
            have h1 := hmC i
            have h2 := ihC i
            rw [List.map_cons, List.count_cons]
            by_cases hi : i = m.id
            · simp only [hi, beq_self_eq_true, if_true] at *
              omega
            · have hmi : m.id ≠ i := fun h => hi h.symm
              have hb : (m.id == i) = false := by simp [hmi]
              simp only [hb, Bool.false_eq_true, if_false] at *
              simp only [if_neg hi] at h1
              omega
          · intro i hi
            have hcount : evs.count (Event.post i) = 0 := by
              by_cases hieq : i = m.id
              · obtain ⟨_, hev⟩ := hmE (hieq ▸ hi)
                rw [hev]; simp [List.count_nil]
              · have := hmC i
                rw [if_neg hieq] at this
                omega
            have hrep1 : hasRepliedToTweet s1 i = true :=
              hasReplied_preserved hmD hi
            obtain ⟨hrc, hrr⟩ := ihD i hrep1
            refine ⟨?_, hrr⟩
            rw [List.count_append, hcount, hrc]
          · rw [savedIds_append, List.map_cons]
            rcases hmF with hev | hev
            · rw [hev, List.nil_append]
              exact ihF.cons m.id
            · rw [hev, List.cons_append, List.nil_append]
              exact ihF.cons₂ m.id

/-- The cursor after processing `saved` ids in order: the last one saved,
or the initial cursor when none was. -/
def lastSavedCursor (c0 : Option String) (saved : List String) : Option String :=
  match saved.getLast? with
  | none => c0
  | some x => some x

theorem lastSavedCursor_cons (c0 : Option String) (x : String)
    (l : List String) :
    lastSavedCursor c0 (x :: l) = lastSavedCursor (some x) l := by
  cases l with
  | nil => simp [lastSavedCursor]
  | cons y ys =>
      unfold lastSavedCursor
      rw [List.getLast?_cons_cons,
        List.getLast?_eq_getLast (y :: ys) (List.cons_ne_nil y ys)]

/-- Cursor evolution across the loop: the final `lastMentionId` is the last
id passed to `saveLastMentionId`, or unchanged if none was (all batch ids
nonempty). -/
theorem processLoop_cursor (env : RunEnv) (ms : List Mention) :
    ∀ (s : BotState) (st : RunStats), (∀ m ∈ ms, m.id ≠ "") →
      (processLoop env s st ms).state.twitter.lastMentionId =
        lastSavedCursor s.twitter.lastMentionId
          (savedIds (processLoop env s st ms).trace) := by
  induction ms with
  | nil =>
      intro s st _
      simp [processLoop, LoopOutcome.state, LoopOutcome.trace, savedIds,
        lastSavedCursor]
  | cons m rest ih =>
      intro s st hne
      cases hpm : processMention env s st m with
      | error st1 =>
          rw [processLoop_cons_error env rest hpm]
          simp [LoopOutcome.state, LoopOutcome.trace, savedIds, lastSavedCursor]
      | ok out =>
          obtain ⟨s1, st1, evs⟩ := out
          obtain ⟨hstate, htrace⟩ := processLoop_cons_ok env rest hpm
          have hm := processMention_ok_spec env s st m s1 st1 evs hpm
          obtain ⟨_, _, _, _, _, hmF, hmG, hmH⟩ := hm
          have IH := ih s1 st1 (fun x hx => hne x (List.mem_cons_of_mem m hx))
          rw [hstate, htrace, savedIds_append]
          rcases hmF with hev | hev
          · rw [hev, List.nil_append, IH, hmG hev]
          · rw [hev, List.cons_append, List.nil_append, lastSavedCursor_cons,
              IH, hmH (hne m (List.mem_cons_self m rest)) hev]

/-- How a full run relates to its mention loop: the `replies` and `twitter`
blocks pass through `endExecution` untouched, and the run's trace counts
posts and cursor saves exactly as the loop trace does. -/
theorem processMentionsRun_parts (s : BotState) (env : RunEnv)
    (batch : List Mention) :
    (processMentionsRun s env batch).1.replies =
      (processLoop env (runStartState s env) (initialStats batch)
        (sortBatch batch)).state.replies ∧
    (processMentionsRun s env batch).1.twitter =
      (processLoop env (runStartState s env) (initialStats batch)
        (sortBatch batch)).state.twitter ∧
    (∀ i, (processMentionsRun s env batch).2.count (Event.post i) =
      (processLoop env (runStartState s env) (initialStats batch)
        (sortBatch batch)).trace.count (Event.post i)) ∧
    savedIds (processMentionsRun s env batch).2 =
      savedIds (processLoop env (runStartState s env) (initialStats batch)
        (sortBatch batch)).trace := by
  unfold processMentionsRun
  cases ho : processLoop env (runStartState s env) (initialStats batch)
      (sortBatch batch) with
  | aborted s2 st2 tr2 =>
      refine ⟨rfl, rfl, fun i => rfl, rfl⟩
  | completed s2 st2 tr2 =>
      refine ⟨rfl, rfl, ?_, ?_⟩
      · intro i
        simp [LoopOutcome.trace, List.count_append]
      · simp [LoopOutcome.trace, savedIds_append, savedIds]

theorem runAll_history_nodup (runs : List Run) :
    ∀ s : BotState, (s.replies.history.map Prod.fst).Nodup →
      ((runAll s runs).1.replies.history.map Prod.fst).Nodup := by
  induction runs with
  | nil => exact fun s h => h
  | cons r rest ih =>
      intro s hn
      have hparts := processMentionsRun_parts s r.env r.batch
      have hloop := processLoop_spec r.env (sortBatch r.batch)
        (runStartState s r.env) (initialStats r.batch)
      have hn1 : (((processMentionsRun s r.env r.batch).1).replies.history.map
          Prod.fst).Nodup := by
        rw [hparts.1]
        exact hloop.2.2.2.2.1 hn
      simpa [runAll] using ih (processMentionsRun s r.env r.batch).1 hn1

theorem runAll_traces_posts (runs : List Run)
    (hids : ∀ r ∈ runs, (r.batch.map Mention.id).Nodup) :
    ∀ s : BotState, ∀ tr ∈ (runAll s runs).2, ∀ i,
      tr.count (Event.post i) ≤ 1 := by
  induction runs with
  | nil => intro s tr htr; simp [runAll] at htr
  | cons r rest ih =>
      intro s tr htr i
      simp only [runAll, List.mem_cons] at htr
      rcases htr with rfl | htr
      · have hparts := processMentionsRun_parts s r.env r.batch
        rw [hparts.2.2.1 i]
        have hloop := processLoop_spec r.env (sortBatch r.batch)
          (runStartState s r.env) (initialStats r.batch)
        refine le_trans (hloop.2.2.1 i) ?_
        have hperm : ((sortBatch r.batch).map Mention.id).Perm
            (r.batch.map Mention.id) :=
          (List.mergeSort_perm r.batch _).map Mention.id
        rw [hperm.count_eq i]
        exact List.nodup_iff_count_le_one.mp (hids r (List.mem_cons_self r rest)) i
      · exact ih (fun x hx => hids x (List.mem_cons_of_mem r hx))
          (processMentionsRun s r.env r.batch).1 tr htr i

/-! ### Claim C1 — at-most-once reply -/

/-- Claim C1: starting from the default state, after any number of
`processMentions` runs whose fetched batches carry distinct mention ids,
(1) `replies.history` holds at most one entry per mention id, (2) within
each single batch `postTweet` is called at most once per id (the source's
`MAX_RETRIES` is 0, so there are no retries of an attempt), and (3) no post
is ever made for an id whose dedup check `hasRepliedToTweet` already
answers true — replies are dedup-checked before posting and marked via
`markTweetAsReplied` after a successful post. -/
theorem c1_at_most_once_reply (runs : List Run)
    (hids : ∀ r ∈ runs, (r.batch.map Mention.id).Nodup) :
    (∀ i, ((runAll getDefaultState runs).1.replies.history.map Prod.fst).count i ≤ 1) ∧
    (∀ tr ∈ (runAll getDefaultState runs).2, ∀ i,
      tr.count (Event.post i) ≤ 1) ∧
    (∀ (s : BotState) (env : RunEnv) (batch : List Mention) (i : String),
      hasRepliedToTweet s i = true →
      (processMentionsRun s env batch).2.count (Event.post i) = 0) := by
  refine ⟨?_, runAll_traces_posts runs hids getDefaultState, ?_⟩
  · intro i
    exact List.nodup_iff_count_le_one.mp
      (runAll_history_nodup runs getDefaultState (by simp [getDefaultState])) i
  · intro s env batch i hi
    have hparts := processMentionsRun_parts s env batch
    rw [hparts.2.2.1 i]
    have hloop := processLoop_spec env (sortBatch batch)
      (runStartState s env) (initialStats batch)
    have hi0 : hasRepliedToTweet (runStartState s env) i = true := hi
    exact (hloop.2.2.2.1 i hi0).1

/-- Witness for C1: one run whose batch holds two distinct mentions. -/
theorem c1_at_most_once_reply_witness :
    (∀ r ∈ [Run.mk ⟨0, 0, "e", true⟩
        [⟨"1", "a", some 0, none, true, [], none, true, "", true, ""⟩,
         ⟨"2", "a", some 0, none, true, [], none, true, "", true, ""⟩]],
      (r.batch.map Mention.id).Nodup) ∧
    (∀ i, (((runAll getDefaultState [Run.mk ⟨0, 0, "e", true⟩
        [⟨"1", "a", some 0, none, true, [], none, true, "", true, ""⟩,
         ⟨"2", "a", some 0, none, true, [], none, true, "", true, ""⟩]]).1).replies.history.map Prod.fst).count i ≤ 1) := by
  refine ⟨by decide, ?_⟩
  exact (c1_at_most_once_reply _ (by decide)).1
/-- Witness for C7: two runs of durations 4 and 6 average to 5. -/
theorem c7_rolling_average_witness :
    ([⟨0, 4, "a", true, ⟨0, 0, 0, 0, 0⟩⟩, ⟨10, 16, "b", true, ⟨0, 0, 0, 0, 0⟩⟩] :
        List RunDesc) ≠ [] ∧
    (([⟨0, 4, "a", true, ⟨0, 0, 0, 0, 0⟩⟩, ⟨10, 16, "b", true, ⟨0, 0, 0, 0, 0⟩⟩] :
        List RunDesc).foldl execRun getDefaultState.executionMetrics).avgRunDuration =
      (([⟨0, 4, "a", true, ⟨0, 0, 0, 0, 0⟩⟩, ⟨10, 16, "b", true, ⟨0, 0, 0, 0, 0⟩⟩] :
        List RunDesc).map (fun r => r.endTime - r.startTime)).sum / 2 :=
  ⟨List.cons_ne_nil _ _,
    c7_rolling_average _ (List.cons_ne_nil _ _)⟩

/-! ### Claim C2 — cursor monotonicity -/

theorem sortBatch_pairwise (batch : List Mention) :
    (sortBatch batch).Pairwise (fun a b => a.id ≤ b.id) := by
  have h := @List.sorted_mergeSort Mention
    (fun a b => decide (a.id ≤ b.id))
    (fun a b c h1 h2 => by
      simp only [decide_eq_true_eq] at h1 h2 ⊢
      exact le_trans h1 h2)
    (fun a b => by
      simp only [Bool.or_eq_true, decide_eq_true_eq]
      exact le_total a.id b.id)
    batch
  exact h.imp (fun hab => by simpa using hab)

theorem all_le_getLast :
    ∀ (l : List String), l.Pairwise (· ≤ ·) → ∀ (hne : l ≠ []),
      ∀ x ∈ l, x ≤ l.getLast hne := by
  intro l
  induction l with
  | nil => intro _ hne; exact absurd rfl hne
  | cons a t ih =>
      intro hp hne x hx
      obtain ⟨ha, hpt⟩ := List.pairwise_cons.mp hp
      cases t with
      | nil =>
          rcases List.mem_singleton.mp hx with rfl
          simp [List.getLast]
      | cons b t' =>
          rw [List.getLast_cons (List.cons_ne_nil b t')]
          rcases List.mem_cons.mp hx with rfl | hx'
          · exact ha _ (List.getLast_mem (List.cons_ne_nil b t'))
          · exact ih hpt (List.cons_ne_nil b t') x hx'

/-- Claim C2: over one `processMentions` run (ids nonempty), the persisted
`lastMentionId` is unchanged when no mention reached the cursor-advance
step, and otherwise equals the maximum (the last, as the batch is processed
in ascending id order after the sort) of the ids that were saved; and when
every fetched id exceeds the initial cursor, the cursor never moves to a
smaller id. -/
theorem c2_cursor_monotone (s : BotState) (env : RunEnv) (batch : List Mention)
    (hne : ∀ m ∈ batch, m.id ≠ "") :
    (savedIds (processMentionsRun s env batch).2 = [] →
      (processMentionsRun s env batch).1.twitter.lastMentionId =
        s.twitter.lastMentionId) ∧
    (∀ hsv : savedIds (processMentionsRun s env batch).2 ≠ [],
      (processMentionsRun s env batch).1.twitter.lastMentionId =
        some ((savedIds (processMentionsRun s env batch).2).getLast hsv) ∧
      ((savedIds (processMentionsRun s env batch).2).getLast hsv ∈
        savedIds (processMentionsRun s env batch).2) ∧
      ∀ x ∈ savedIds (processMentionsRun s env batch).2,
        x ≤ (savedIds (processMentionsRun s env batch).2).getLast hsv) ∧
    (∀ c, s.twitter.lastMentionId = some c → (∀ m ∈ batch, c < m.id) →
      ∀ c', (processMentionsRun s env batch).1.twitter.lastMentionId = some c' →
        c ≤ c') := by
  have hparts := processMentionsRun_parts s env batch
  have hnes : ∀ m ∈ sortBatch batch, m.id ≠ "" := by
    intro m hm
    exact hne m (List.mem_mergeSort.mp hm)
  have hcur := processLoop_cursor env (sortBatch batch)
    (runStartState s env) (initialStats batch) hnes
  have hcur' : (processMentionsRun s env batch).1.twitter.lastMentionId =
      lastSavedCursor s.twitter.lastMentionId
        (savedIds (processMentionsRun s env batch).2) := by
    rw [hparts.2.2.2]
    rw [congrArg TwitterCursor.lastMentionId hparts.2.1]
    exact hcur
  have hsub : (savedIds (processMentionsRun s env batch).2).Sublist
      ((sortBatch batch).map Mention.id) := by
    rw [hparts.2.2.2]
    exact (processLoop_spec env (sortBatch batch) (runStartState s env)
      (initialStats batch)).2.2.2.2.2
  have hpw : (savedIds (processMentionsRun s env batch).2).Pairwise (· ≤ ·) :=
    (List.pairwise_map.mpr (sortBatch_pairwise batch)).sublist hsub
  have hmem_batch : ∀ x ∈ savedIds (processMentionsRun s env batch).2,
      ∃ m ∈ batch, m.id = x := by
    intro x hx
    have hx' := hsub.mem hx
    obtain ⟨m, hm, hmx⟩ := List.mem_map.mp hx'
    exact ⟨m, List.mem_mergeSort.mp hm, hmx⟩
  have hmain1 : savedIds (processMentionsRun s env batch).2 = [] →
      (processMentionsRun s env batch).1.twitter.lastMentionId =
        s.twitter.lastMentionId := by
    intro hsv
    rw [hcur', hsv]
    rfl
  have hmain2 : ∀ hsv : savedIds (processMentionsRun s env batch).2 ≠ [],
      (processMentionsRun s env batch).1.twitter.lastMentionId =
        some ((savedIds (processMentionsRun s env batch).2).getLast hsv) ∧
      ((savedIds (processMentionsRun s env batch).2).getLast hsv ∈
        savedIds (processMentionsRun s env batch).2) ∧
      ∀ x ∈ savedIds (processMentionsRun s env batch).2,
        x ≤ (savedIds (processMentionsRun s env batch).2).getLast hsv := by
    intro hsv
    refine ⟨?_, List.getLast_mem hsv, all_le_getLast _ hpw hsv⟩
    rw [hcur']
    unfold lastSavedCursor
    rw [List.getLast?_eq_getLast _ hsv]
  refine ⟨hmain1, hmain2, ?_⟩
  intro c hc hlt c' hc'
  by_cases hsv : savedIds (processMentionsRun s env batch).2 = []
  · rw [hmain1 hsv, hc] at hc'
    cases hc'
    exact le_refl c
  · obtain ⟨heq, hmem, _⟩ := hmain2 hsv
    rw [heq] at hc'
    cases hc'
    obtain ⟨m, hm, hmx⟩ := hmem_batch _ hmem
    exact le_of_lt (hmx ▸ hlt m hm)

/-- Witness for C2: a single-mention batch with a nonempty id. -/
theorem c2_cursor_monotone_witness :
    (∀ m ∈ [(⟨"7", "a", some 0, none, true, [], none, true, "", true, ""⟩ :
        Mention)], m.id ≠ "") ∧
    (savedIds (processMentionsRun getDefaultState ⟨0, 0, "e", true⟩
        [⟨"7", "a", some 0, none, true, [], none, true, "", true, ""⟩]).2 = [] →
      (processMentionsRun getDefaultState ⟨0, 0, "e", true⟩
        [⟨"7", "a", some 0, none, true, [], none, true, "", true, ""⟩]).1.twitter.lastMentionId =
        getDefaultState.twitter.lastMentionId) := by
  refine ⟨by decide, ?_⟩
  exact (c2_cursor_monotone getDefaultState ⟨0, 0, "e", true⟩ _ (by decide)).1

/-! ### Claim C4 — rate-limit batch abort -/

/-- A mention whose gates pass but whose candidate loop hits a rate-limit
classified resolver error makes `processMention` abort, leaving the state
untouched (only the in-memory `mentionsProcessed` counter was bumped). -/
theorem processMention_rateLimited (env : RunEnv) (s : BotState)
    (st : RunStats) (m : Mention)
    (h1 : hasRepliedToTweet s m.id = false)
    (h2 : isTweetRecent env.now m.created_at = true)
    (h3 : m.shouldRespond = true)
    (h4 : resolveLoop m.candidates = .rateLimited) :
    processMention env s st m = .error (bumpProcessed st) := by
  have hc : m.candidates.isEmpty = false := by
    cases hcand : m.candidates with
    | nil => rw [hcand] at h4; cases h4
    | cons a l => simp [hcand]
  unfold processMention
  simp [h1, h2, h3, hc, h4]

/-- Running the loop past a completed prefix continues from the prefix's
final state, stats and trace. -/
theorem processLoop_completed_append (env : RunEnv) (pre : List Mention) :
    ∀ (s : BotState) (st : RunStats) (s1 : BotState) (st1 : RunStats)
      (tr1 : List Event) (ms : List Mention),
      processLoop env s st pre = .completed s1 st1 tr1 →
      processLoop env s st (pre ++ ms) =
        (match processLoop env s1 st1 ms with
         | .completed s2 st2 tr2 => .completed s2 st2 (tr1 ++ tr2)
         | .aborted s2 st2 tr2 => .aborted s2 st2 (tr1 ++ tr2)) := by
  induction pre with
  | nil =>
      intro s st s1 st1 tr1 ms h
      simp only [processLoop] at h
      cases h
      cases ho : processLoop env s st ms <;> simp [ho]
  | cons m pre' ih =>
      intro s st s1 st1 tr1 ms h
      cases hpm : processMention env s st m with
      | error st2 =>
          rw [processLoop_cons_error env pre' hpm] at h
          cases h
      | ok out =>
          obtain ⟨sa, sta, evsa⟩ := out
          have hcons : processLoop env s st (m :: pre') =
              (match processLoop env sa sta pre' with
               | .completed s2 st2 tr2 => .completed s2 st2 (evsa ++ tr2)
               | .aborted s2 st2 tr2 => .aborted s2 st2 (evsa ++ tr2)) := by
            simp [processLoop, hpm]
          rw [hcons] at h
          cases hrec : processLoop env sa sta pre' with
          | aborted s2 st2 tr2 => rw [hrec] at h; cases h
          | completed s2 st2 tr2 =>
              rw [hrec] at h
              cases h
              have hrest := ih sa sta s1 st1 tr2 ms hrec
              have hcons2 : processLoop env s st ((m :: pre') ++ ms) =
                  (match processLoop env sa sta (pre' ++ ms) with
                   | .completed s3 st3 tr3 => .completed s3 st3 (evsa ++ tr3)
                   | .aborted s3 st3 tr3 => .aborted s3 st3 (evsa ++ tr3)) := by
                simp [processLoop, hpm]
              rw [hcons2, hrest]
              cases processLoop env s1 st1 ms <;> simp

/-- Claim C4: a rate-limit classified resolver error aborts the whole
batch — after any non-aborting prefix, a mention that reaches its candidate
loop and hits a rate-limit error makes the loop return immediately with the
state exactly as it was before that mention (cursor not advanced for it or
for any remaining mention); any other resolver error just moves the
candidate loop on to the next candidate. -/
theorem c4_rate_limit_abort :
    (∀ (env : RunEnv) (s : BotState) (st : RunStats) (pre : List Mention)
        (s1 : BotState) (st1 : RunStats) (tr1 : List Event) (m : Mention)
        (rest : List Mention),
      processLoop env s st pre = .completed s1 st1 tr1 →
      hasRepliedToTweet s1 m.id = false →
      isTweetRecent env.now m.created_at = true →
      m.shouldRespond = true →
      resolveLoop m.candidates = .rateLimited →
      processLoop env s st (pre ++ m :: rest) =
        .aborted s1 (bumpProcessed st1) tr1) ∧
    (∀ (msg : String) (rest : List ResolveOutcome),
      isRateLimitMessage msg = false →
      resolveLoop (.err msg :: rest) = resolveLoop rest) := by
  constructor
  · intro env s st pre s1 st1 tr1 m rest hpre h1 h2 h3 h4
    rw [processLoop_completed_append env pre s st s1 st1 tr1 (m :: rest) hpre]
    rw [processLoop_cons_error env rest
      (processMention_rateLimited env s1 st1 m h1 h2 h3 h4)]
    simp
  · intro msg rest hmsg
    simp [resolveLoop, hmsg]

/-- Witness for C4: an empty prefix and a mention whose only candidate
resolution throws a rate-limit error. -/
theorem c4_rate_limit_abort_witness :
    processLoop ⟨0, 0, "e", true⟩ getDefaultState ⟨1, 0, 0, 0, 0⟩ [] =
      .completed getDefaultState ⟨1, 0, 0, 0, 0⟩ [] ∧
    hasRepliedToTweet getDefaultState "9" = false ∧
    isTweetRecent (0 : ℤ) (some 0) = true ∧
    resolveLoop [ResolveOutcome.err "rate limit exceeded"] = .rateLimited ∧
    processLoop ⟨0, 0, "e", true⟩ getDefaultState ⟨1, 0, 0, 0, 0⟩
        ([] ++ (⟨"9", "a", some 0, none, true,
          [ResolveOutcome.err "rate limit exceeded"], none, true, "", true, ""⟩ :
            Mention) :: []) =
      .aborted getDefaultState (bumpProcessed ⟨1, 0, 0, 0, 0⟩) [] := by
  refine ⟨rfl, by decide, by decide, by decide, ?_⟩
  exact (c4_rate_limit_abort.1 ⟨0, 0, "e", true⟩ getDefaultState ⟨1, 0, 0, 0, 0⟩
    [] getDefaultState ⟨1, 0, 0, 0, 0⟩ [] _ [] rfl (by decide) (by decide)
    (by decide) (by decide))

/-! ### Claim C9 — a rate-limit abort never reaches endExecution -/

/-- Claim C9: when the mention loop aborts (the resolver rate-limit
`return`), the whole run returns that very state and trace — no
`endExecution` event ever appears — so `executionMetrics` keeps exactly the
`totalRuns` increment, `lastRunStart` and `currentExecutionId` written by
`startExecution`, while `lastRunTime`, `lastRunDuration`, `lastRunStats`,
`avgRunDuration` and `successRate` retain their values from before the
run. -/
theorem c9_abort_skips_end_execution (s : BotState) (env : RunEnv)
    (batch : List Mention) (s2 : BotState) (st2 : RunStats) (tr2 : List Event)
    (habort : processLoop env (runStartState s env) (initialStats batch)
        (sortBatch batch) = .aborted s2 st2 tr2) :
    processMentionsRun s env batch = (s2, tr2) ∧
    (∀ b : Bool, Event.endExec b ∉ tr2) ∧
    s2.executionMetrics.totalRuns = s.executionMetrics.totalRuns + 1 ∧
    s2.executionMetrics.lastRunStart = some env.now ∧
    s2.executionMetrics.currentExecutionId = some env.execId ∧
    s2.executionMetrics.lastRunTime = s.executionMetrics.lastRunTime ∧
    s2.executionMetrics.lastRunDuration = s.executionMetrics.lastRunDuration ∧
    s2.executionMetrics.lastRunStats = s.executionMetrics.lastRunStats ∧
    s2.executionMetrics.avgRunDuration = s.executionMetrics.avgRunDuration ∧
    s2.executionMetrics.successRate = s.executionMetrics.successRate := by
  have hloop := processLoop_spec env (sortBatch batch) (runStartState s env)
    (initialStats batch)
  have hmet : s2.executionMetrics =
      startExecutionUpdate s.executionMetrics env.now env.execId := by
    have := hloop.1
    rw [habort] at this
    exact this
  have htr : ∀ b : Bool, Event.endExec b ∉ tr2 := by
    intro b
    have := hloop.2.1 b
    rw [habort] at this
    exact this
  refine ⟨?_, htr, ?_, ?_, ?_, ?_, ?_, ?_, ?_, ?_⟩
  · unfold processMentionsRun
    rw [habort]
  all_goals rw [hmet]; rfl

unseal List.merge List.mergeSort in
/-- Witness for C9: a one-mention batch whose resolver hits a rate limit. -/
theorem c9_abort_skips_end_execution_witness :
    processLoop ⟨2, 3, "e", true⟩
        (runStartState getDefaultState ⟨2, 3, "e", true⟩)
        (initialStats [⟨"9", "a", some 2, none, true,
          [ResolveOutcome.err "rate limit exceeded"], none, true, "", true, ""⟩])
        (sortBatch [⟨"9", "a", some 2, none, true,
          [ResolveOutcome.err "rate limit exceeded"], none, true, "", true, ""⟩]) =
      .aborted (runStartState getDefaultState ⟨2, 3, "e", true⟩)
        (bumpProcessed (initialStats [⟨"9", "a", some 2, none, true,
          [ResolveOutcome.err "rate limit exceeded"], none, true, "", true, ""⟩]))
        [] ∧
    processMentionsRun getDefaultState ⟨2, 3, "e", true⟩
        [⟨"9", "a", some 2, none, true,
          [ResolveOutcome.err "rate limit exceeded"], none, true, "", true, ""⟩] =
      (runStartState getDefaultState ⟨2, 3, "e", true⟩,
        ([] : List Event)) := by
  have habort : processLoop ⟨2, 3, "e", true⟩
      (runStartState getDefaultState ⟨2, 3, "e", true⟩)
      (initialStats [⟨"9", "a", some 2, none, true,
        [ResolveOutcome.err "rate limit exceeded"], none, true, "", true, ""⟩])
      (sortBatch [⟨"9", "a", some 2, none, true,
        [ResolveOutcome.err "rate limit exceeded"], none, true, "", true, ""⟩]) =
      .aborted (runStartState getDefaultState ⟨2, 3, "e", true⟩)
        (bumpProcessed (initialStats [⟨"9", "a", some 2, none, true,
          [ResolveOutcome.err "rate limit exceeded"], none, true, "", true, ""⟩]))
        [] := by decide
  exact ⟨habort,
    (c9_abort_skips_end_execution getDefaultState ⟨2, 3, "e", true⟩ _ _ _ _
      habort).1⟩
